import Mathlib

/-!
Verification of the heuristic table-reconstruction engine of the
easy-digits-anywhere repository.

The engine (source: `src/unnamed/part_002`) parses raw OCR text into a
table `{headers, rows, confidence}` by three strategies:
  * a delimiter-based line parser (`parseTextAsTable`, line-oriented
    variant, confidence 85) with `detectDelimiter`;
  * a row-number-anchored token parser (`parseTableByPattern` /
    `parseWithKnownStructure`, confidence 95);
  * a keyword/pattern fallback (`parseWithPatternDetection`, confidence 75).

The definitions below are a shallow embedding of that TypeScript code.
JavaScript strings are modelled as Lean `String` (operating on `String.data`
so that everything reduces in the kernel); `Record<string,string>` objects
are modelled as insertion-ordered association lists where an assignment to
an existing key overwrites in place (JS semantics).  The regex-based
`String.split` calls are modelled by explicit character scanners with
JS `split` semantics (empty cells kept, leading/trailing empties kept).
All recursion is structural so results evaluate by `decide`/`rfl`.
-/

/-- Length of the maximal whitespace prefix of a character list. -/
def wsRun : List Char → Nat
  | [] => 0
  | c :: cs => if c.isWhitespace then wsRun cs + 1 else 0

/-- JS `s.split(c)` for a single-character class: split at every matching
character, keeping empty pieces (`"".split` gives `[""]`). -/
def splitCharsBy (p : Char → Bool) : List Char → List (List Char)
  | [] => [[]]
  | c :: cs =>
    if p c then [] :: splitCharsBy p cs
    else
      match splitCharsBy p cs with
      | [] => [[c]]
      | h :: t => (c :: h) :: t

/-- JS `s.split(/\s+/)` scanner.  State: `some acc` means a cell `acc`
(reversed) is being built; `none` means we are inside a whitespace run
whose cell has already been emitted. -/
def splitWsGo : List Char → Option (List Char) → List (List Char)
  | [], some acc => [acc.reverse]
  | [], none => [[]]
  | c :: cs, some acc =>
    if c.isWhitespace then acc.reverse :: splitWsGo cs none
    else splitWsGo cs (some (c :: acc))
  | c :: cs, none =>
    if c.isWhitespace then splitWsGo cs none
    else splitWsGo cs (some [c])

/-- JS `s.split(/\s{2,}/)` scanner: a run of two or more whitespace
characters is a delimiter; a single whitespace character stays inside the
cell.  `pending` holds a single not-yet-classified whitespace character;
`inRun` is true while skipping the rest of a delimiter run. -/
def splitWs2Go : List Char → List Char → Option Char → Bool → List (List Char)
  | [], acc, none, false => [acc.reverse]
  | [], acc, some w, false => [(w :: acc).reverse]
  | [], _, _, true => [[]]
  | c :: cs, acc, pending, true =>
    if c.isWhitespace then splitWs2Go cs acc pending true
    else splitWs2Go cs [c] none false
  | c :: cs, acc, none, false =>
    if c.isWhitespace then splitWs2Go cs acc (some c) false
    else splitWs2Go cs (c :: acc) none false
  | c :: cs, acc, some w, false =>
    if c.isWhitespace then acc.reverse :: splitWs2Go cs [] none true
    else splitWs2Go cs (c :: w :: acc) none false

/-- JS `s.split(/\s*\|\s*/)` scanner: each pipe, together with the maximal
whitespace runs around it, is a delimiter.  `pending` buffers whitespace
(reversed) that precedes a possible pipe; `afterPipe` is true while the
trailing whitespace of a delimiter is being skipped. -/
def splitPipeGo : List Char → List Char → List Char → Bool → List (List Char)
  | [], acc, pending, false => [(pending ++ acc).reverse]
  | [], _, _, true => [[]]
  | c :: cs, acc, pending, false =>
    if c == '|' then acc.reverse :: splitPipeGo cs [] [] true
    else if c.isWhitespace then splitPipeGo cs acc (c :: pending) false
    else splitPipeGo cs (c :: (pending ++ acc)) [] false
  | c :: cs, _, _, true =>
    if c == '|' then [] :: splitPipeGo cs [] [] true
    else if c.isWhitespace then splitPipeGo cs [] [] true
    else splitPipeGo cs [c] [] false

/-- JS `String.prototype.trim` (whitespace from both ends). -/
def trimChars (l : List Char) : List Char :=
  ((l.dropWhile Char.isWhitespace).reverse.dropWhile Char.isWhitespace).reverse

/-- JS `s.trim()` on Lean strings. -/
def jsTrim (s : String) : String := String.mk (trimChars s.data)

/-- `^\d+$` — a non-empty all-digit string. -/
def isDigits (s : String) : Bool := !s.data.isEmpty && s.data.all Char.isDigit

/-- JS `parseInt` on a string matching `^\d+$` (decimal value). -/
def parseIntDigits (s : String) : Nat :=
  s.data.foldl (fun n c => n * 10 + (c.toNat - '0'.toNat)) 0

/-- Decimal digits of `n` (most significant first); `fuel ≥ n` suffices. -/
def natToStrAux : Nat → Nat → List Char
  | 0, _ => []
  | fuel + 1, n =>
    if n = 0 then []
    else natToStrAux fuel (n / 10) ++ [Char.ofNat (48 + n % 10)]

/-- JS `n.toString()` for a non-negative integer. -/
def natToStr (n : Nat) : String :=
  if n = 0 then "0" else String.mk (natToStrAux n n)

/-- JS `Math.round(a / b)` for natural `a` and positive `b`
(round half away from zero, i.e. half up for non-negative values). -/
def jsRoundDiv (a b : Nat) : Nat := (2 * a + b) / (2 * b)

/-- JS `array.findIndex` (as an `Option`), with explicit index accumulator. -/
def findIdxFrom (p : String → Bool) : List String → Nat → Option Nat
  | [], _ => none
  | a :: t, i => if p a then some i else findIdxFrom p t (i + 1)

/-- JS `words.findIndex(p)`; `none` models the `-1` result. -/
def jsFindIndex (p : String → Bool) (l : List String) : Option Nat :=
  findIdxFrom p l 0

/-- Assignment `r[k] = v` on a JS object modelled as an insertion-ordered
association list: overwrite in place if the key exists, else append. -/
def recInsert (r : List (String × String)) (k v : String) :
    List (String × String) :=
  if r.any (fun p => p.1 == k) then
    r.map (fun p => if p.1 == k then (k, v) else p)
  else r ++ [(k, v)]

/-- Is `pat` a prefix of `l`? -/
def prefB : List Char → List Char → Bool
  | [], _ => true
  | _ :: _, [] => false
  | a :: as, b :: bs => a == b && prefB as bs

/-- Does `l` contain `pat` as a contiguous sublist?  (JS `/pat/.test(s)`.) -/
def hasSubstr (pat : List Char) : List Char → Bool
  | [] => prefB pat []
  | c :: rest => prefB pat (c :: rest) || hasSubstr pat rest

/-- Does `l` end with `pat`?  (JS `/pat$/.test(s)`.) -/
def endsWithChars (pat l : List Char) : Bool := prefB pat.reverse l.reverse

/-- The engine's universal output shape (`ExtractedTableData` in the source):
headers, rows as ordered key→value records, and a confidence score. -/
structure ExtractedTableData where
  headers : List String
  rows : List (List (String × String))
  confidence : Nat
deriving DecidableEq, Repr

/-- The fixed, ordered set of delimiters tried by `detectDelimiter`,
plus the `\s+` default. -/
inductive Delim
  | tab
  | spaces2
  | pipe
  | comma
  | wsDefault
deriving DecidableEq, Repr

/-- `line.split(delimiter)` for each of the delimiter regexes of the source:
`/\t/`, `/\s{2,}/`, `/\s*\|\s*/`, `/,/` and the default `/\s+/`. -/
def splitByDelim (d : Delim) (s : String) : List String :=
  match d with
  | .tab => (splitCharsBy (fun c => c == '\t') s.data).map String.mk
  | .spaces2 => (splitWs2Go s.data [] none false).map String.mk
  | .pipe => (splitPipeGo s.data [] [] false).map String.mk
  | .comma => (splitCharsBy (fun c => c == ',') s.data).map String.mk
  | .wsDefault => (splitWsGo s.data (some [])).map String.mk

/-- The candidate delimiters, in the source's priority order. -/
def delimPriority : List Delim := [.tab, .spaces2, .pipe, .comma]

/-- `detectDelimiter`'s per-candidate test: split each of the first 5 lines
and require every count to exceed 1 and equal the first count. -/
def delimValid (lines : List String) (d : Delim) : Bool :=
  let counts := (lines.take 5).map (fun line => (splitByDelim d line).length)
  counts.all (fun c => decide (1 < c) && c == counts.headD 0)

/-- `detectDelimiter` (source lines 884–901 and 1838–1855): return the first
candidate that validates on the first 5 lines, else the `\s+` default. -/
def detectDelimiter (lines : List String) : Delim :=
  match delimPriority.find? (fun d => delimValid lines d) with
  | some d => d
  | none => .wsDefault

namespace LineMode

/-!
The line-oriented `parseTextAsTable` (source `src/unnamed/part_002`,
lines 852–881): split the text into non-blank lines, detect a delimiter,
take line 0 as the header row, and accept each later line as a data row
when its cell count is at least 80% of the header count.
-/

/-- `text.split('\n').filter(line => line.trim())`. -/
def nonBlankLines (text : String) : List String :=
  ((splitCharsBy (fun c => c == '\n') text.data).map String.mk).filter
    (fun line => jsTrim line != "")

/-- The row object built for one line:
`headers.forEach((header, index) => row[header] = values[index] || '')`,
with `i` the running index. -/
def buildRowAux (values : List String) :
    List String → Nat → List (String × String) → List (String × String)
  | [], _, r => r
  | h :: hs, i, r => buildRowAux values hs (i + 1) (recInsert r h (values.getD i ""))

/-- Row construction for `headers` from `values`, missing cells become `""`. -/
def buildRow (headers values : List String) : List (String × String) :=
  buildRowAux values headers 0 []

/-- Line-oriented `parseTextAsTable`.  The acceptance test
`values.length >= headers.length * 0.8` is modelled exactly over the
integers as `headers.length * 4 ≤ values.length * 5`. -/
def parseTextAsTable (text : String) : ExtractedTableData :=
  let lines := nonBlankLines text
  if lines.length < 2 then ⟨[], [], 0⟩
  else
    let delimiter := detectDelimiter lines
    let headers :=
      ((splitByDelim delimiter (lines.headD "")).map jsTrim).filter (fun h => h != "")
    let rows := (lines.drop 1).filterMap (fun line =>
      let values := (splitByDelim delimiter line).map jsTrim
      if headers.length * 4 ≤ values.length * 5 then some (buildRow headers values)
      else none)
    ⟨headers, rows, 85⟩

end LineMode

namespace TokenMode

/-!
The token-oriented strategies (source `src/unnamed/part_002`, lines
1624–1836): `parseTextAsTable` tokenizes on whitespace and requires at
least 6 tokens; `parseTableByPattern` looks for a contiguous row-number
sequence and dispatches to `parseWithKnownStructure` (confidence 95) or to
the keyword fallback `parseWithPatternDetection` (confidence 75).
-/

/-- `text.split(/\s+/).filter(word => word.trim() && word.length > 0)`. -/
def tokenize (text : String) : List String :=
  ((splitWsGo text.data (some [])).map String.mk).filter
    (fun w => jsTrim w != "" && decide (0 < w.data.length))

/-- The fixed header keyword lexicon of `parseWithPatternDetection`:
`/customer/i, /name/i, /id$/i, /age$/i, /country/i, /email/i, /phone/i,
/amount/i, /price/i, /total/i, /date/i, /status/i`. -/
def headerKeywordMatch (w : String) : Bool :=
  let lw := w.data.map Char.toLower
  hasSubstr "customer".data lw || hasSubstr "name".data lw ||
  endsWithChars "id".data lw || endsWithChars "age".data lw ||
  hasSubstr "country".data lw || hasSubstr "email".data lw ||
  hasSubstr "phone".data lw || hasSubstr "amount".data lw ||
  hasSubstr "price".data lw || hasSubstr "total".data lw ||
  hasSubstr "date".data lw || hasSubstr "status".data lw

/-- A token is a likely header if it matches the lexicon or is longer than
2 characters and not purely numeric. -/
def isLikelyHeader (w : String) : Bool :=
  headerKeywordMatch w || (decide (2 < w.data.length) && !(isDigits w))

/-- Header-candidate scan of `parseWithPatternDetection`: examine the first
`min(10, words.length)` tokens, accept likely headers, cap at 8. -/
def patternHeaders (words : List String) : List String :=
  (words.take 10).foldl
    (fun hs w => if isLikelyHeader w && decide (hs.length < 8) then hs ++ [w] else hs)
    []

/-- One fallback row: `row[headers[j]] = dataWords[i + j] || ''` for
`j < headers.length`; indexing from `i` is realised by dropping `i`
tokens first (`(dataWords.drop i).getD j "" = dataWords.getD (i + j) ""`). -/
def buildPatternRow (headers dataWords : List String) (i : Nat) :
    List (String × String) :=
  LineMode.buildRow headers (dataWords.drop i)

/-- The fallback chunking loop: starting at `i = 0` and stepping by
`headers.length`, build a row per chunk and keep it when some value is
non-blank.  `fuel = dataWords.length` bounds the iteration count (the step
is positive whenever this is called, since headers are non-empty). -/
def chunkRowsAux (headers dataWords : List String) :
    Nat → Nat → List (List (String × String)) → List (List (String × String))
  | 0, _, acc => acc
  | fuel + 1, i, acc =>
    if i < dataWords.length then
      let row := buildPatternRow headers dataWords i
      let acc' := if row.any (fun p => jsTrim p.2 != "") then acc ++ [row] else acc
      chunkRowsAux headers dataWords fuel (i + headers.length) acc'
    else acc

/-- Rows of the keyword fallback parser. -/
def chunkRows (headers dataWords : List String) : List (List (String × String)) :=
  chunkRowsAux headers dataWords dataWords.length 0 []

/-- `parseWithPatternDetection` (source lines 1786–1836): guess headers
from the first tokens, or return the zero-confidence empty result; the
remaining tokens (`words.slice(headers.length)`) are chunked into rows. -/
def parseWithPatternDetection (words : List String) : ExtractedTableData :=
  let headers := patternHeaders words
  if headers.length = 0 then ⟨[], [], 0⟩
  else
    let dataWords := words.drop headers.length
    ⟨headers, chunkRows headers dataWords, 75⟩

/-- Inner cell loop of `parseWithKnownStructure`: consume up to
`colsLeft` more cells for row `rowNum` starting at index `ci`, stopping
early at the end of the data or at a token equal to the next row number.
Returns the row object, the has-data flag and the final index. -/
def consumeCellsGo (allData headers : List String) (rowNum : Nat) :
    Nat → Nat → Nat → List (String × String) → Bool →
    List (String × String) × Bool × Nat
  | 0, _, ci, row, hd => (row, hd, ci)
  | colsLeft + 1, col, ci, row, hd =>
    if ci < allData.length then
      let value := allData.getD ci ""
      if isDigits value && parseIntDigits value == rowNum + 1 then (row, hd, ci)
      else
        let k0 := headers.getD col ""
        let key := if k0 == "" then "Column" ++ natToStr (col + 1) else k0
        consumeCellsGo allData headers rowNum colsLeft (col + 1) (ci + 1)
          (recInsert row key value) (hd || (jsTrim value != ""))
    else (row, hd, ci)

/-- All cells of one row (`for (col = 0; col < columnCount && ...)`). -/
def consumeCells (allData headers : List String) (columnCount rowNum startIdx : Nat) :
    List (String × String) × Bool × Nat :=
  consumeCellsGo allData headers rowNum columnCount 0 startIdx [] false

/-- Outer row loop of `parseWithKnownStructure`
(`for (rowNum = 1; rowNum <= rowCount && currentIndex < len; rowNum++)`):
skip a leading token equal to the row number, consume the cells, keep the
row when it has data.  The fuel equals `rowCount + 1 - rowNum`, so fuel 0
is exactly `rowNum > rowCount`. -/
def processRowsAux (allData headers : List String) (columnCount : Nat) :
    Nat → Nat → Nat → List (List (String × String)) → List (List (String × String))
  | 0, _, _, acc => acc
  | fuel + 1, rowNum, ci, acc =>
    if ci < allData.length then
      let ci1 := if allData.getD ci "" == natToStr rowNum then ci + 1 else ci
      let r := consumeCells allData headers columnCount rowNum ci1
      let acc' := if r.2.1 then acc ++ [r.1] else acc
      processRowsAux allData headers columnCount fuel (rowNum + 1) r.2.2 acc'
    else acc

/-- `parseWithKnownStructure` (source lines 1706–1784): anchor on the first
`"1"` token; headers are the non-blank tokens before it; the column count
is adjusted to the actual header count on mismatch; then step through the
data row by row.  Always returns confidence 95 in this branch.  Without a
`"1"` token it falls back to pattern detection. -/
def parseWithKnownStructure (words : List String) (columnCount0 rowCount : Nat) :
    ExtractedTableData :=
  match jsFindIndex (fun w => w == "1") words with
  | none => parseWithPatternDetection words
  | some idx =>
    let headers := (words.take idx).filter (fun w => 0 < (jsTrim w).data.length)
    let columnCount := if headers.length != columnCount0 then headers.length else columnCount0
    let allDataWords := words.drop idx
    let rows := processRowsAux allDataWords headers columnCount rowCount 1 0 []
    ⟨headers, rows, 95⟩

/-- The row-number tokens: words matching `^\d+$` whose value lies in
`[1, 20]`.  (Digit words outside that range are dropped entirely — they
join neither the row numbers nor the non-numeric words.) -/
def rowNumsOf (words : List String) : List Nat :=
  (words.filterMap (fun w => if isDigits w then some (parseIntDigits w) else none)).filter
    (fun n => decide (1 ≤ n) && decide (n ≤ 20))

/-- The non-numeric words (everything failing `^\d+$`). -/
def nonNumericWordsOf (words : List String) : List String :=
  words.filter (fun w => !(isDigits w))

/-- `maxRowNumber - minRowNumber + 1` over the detected row numbers. -/
def numberOfRowsOf (words : List String) : Nat :=
  let rns := rowNumsOf words
  rns.foldl Nat.max 0 - rns.foldl Nat.min (rns.headD 0) + 1

/-- The header-derived column count: the index of the first `"1"` token,
accepted only when positive and between 2 and 10. -/
def headerCountCheck (words : List String) : Option Nat :=
  match jsFindIndex (fun w => w == "1") words with
  | some idx =>
    if decide (0 < idx) && decide (2 ≤ idx) && decide (idx ≤ 10) then some idx else none
  | none => none

/-- The fallback statistical estimate:
`Math.round(nonNumericWords.length / numberOfRows)`. -/
def estimatedColumnsOf (words : List String) : Nat :=
  jsRoundDiv (nonNumericWordsOf words).length (numberOfRowsOf words)

/-- `parseTableByPattern` (source lines 1639–1704): require at least two
row-number tokens forming a contiguous range; then try the header-derived
column count, then the statistical estimate (each accepted only in
`[2, 10]`); otherwise fall through to pattern detection. -/
def parseTableByPattern (words : List String) : ExtractedTableData :=
  let rowNumbers := rowNumsOf words
  if 2 ≤ rowNumbers.length then
    let numberOfRows := numberOfRowsOf words
    if rowNumbers.length = numberOfRows then
      match headerCountCheck words with
      | some headerCount => parseWithKnownStructure words headerCount numberOfRows
      | none =>
        let estimated := estimatedColumnsOf words
        if decide (2 ≤ estimated) && decide (estimated ≤ 10) then
          parseWithKnownStructure words estimated numberOfRows
        else parseWithPatternDetection words
    else parseWithPatternDetection words
  else parseWithPatternDetection words

/-- Token-oriented `parseTextAsTable` (source lines 1624–1637): tokenize on
whitespace; fewer than 6 tokens is an immediate empty result. -/
def parseTextAsTable (text : String) : ExtractedTableData :=
  let words := tokenize text
  if words.length < 6 then ⟨[], [], 0⟩
  else parseTableByPattern words

end TokenMode

/-- Per the claim's reading of §4.3, the data pool would consist of exactly
the tokens after the examined header-candidate window, i.e. after the first
`min(10, words.length)` tokens.  This definition follows the claim's words;
it differs from the source, which drops only `headers.length` tokens. -/
def parseWithPatternDetectionAfterWindow (words : List String) : ExtractedTableData :=
  let headers := TokenMode.patternHeaders words
  if headers.length = 0 then ⟨[], [], 0⟩
  else
    let dataWords := words.drop (min 10 words.length)
    ⟨headers, TokenMode.chunkRows headers dataWords, 75⟩

/-- C4: on the Scenario B token stream the row-number-anchored parser finds
the boundary before the first `"1"`, returns headers `[Name, Age, City]`,
exactly the two expected rows, and confidence 95. -/
theorem c4_scenarioB :
    TokenMode.parseTableByPattern
        ["Name", "Age", "City", "1", "Sam", "23", "Delhi", "2", "Anne", "30", "Mumbai"] =
      ⟨["Name", "Age", "City"],
       [[("Name", "Sam"), ("Age", "23"), ("City", "Delhi")],
        [("Name", "Anne"), ("Age", "30"), ("City", "Mumbai")]], 95⟩ := by
  decide

/-- C7: a line-oriented input with fewer than 2 non-blank lines (including
the empty string) yields the empty no-table result with confidence 0. -/
theorem c7_min_two_lines (text : String)
    (h : (LineMode.nonBlankLines text).length < 2) :
    LineMode.parseTextAsTable text = ⟨[], [], 0⟩ := by
  unfold LineMode.parseTextAsTable
  simp only [if_pos h]

/-- Witness for C7 at the empty string. -/
theorem c7_min_two_lines_witness :
    (LineMode.nonBlankLines "").length < 2 ∧
      LineMode.parseTextAsTable "" = ⟨[], [], 0⟩ :=
  ⟨by decide, c7_min_two_lines "" (by decide)⟩

/-- C10: an input whose whitespace tokenization yields fewer than 6 tokens
makes the token-oriented entry point return the empty result without
attempting any strategy. -/
theorem c10_min_six_tokens (text : String)
    (h : (TokenMode.tokenize text).length < 6) :
    TokenMode.parseTextAsTable text = ⟨[], [], 0⟩ := by
  unfold TokenMode.parseTextAsTable
  simp only [if_pos h]

/-- Witness for C10: five tokens that would form a header row plus a data
row are still rejected. -/
theorem c10_min_six_tokens_witness :
    (TokenMode.tokenize "Name Age 1 Sam 23").length < 6 ∧
      TokenMode.parseTextAsTable "Name Age 1 Sam 23" = ⟨[], [], 0⟩ :=
  ⟨by decide, c10_min_six_tokens "Name Age 1 Sam 23" (by decide)⟩

/-- C1 is false on the code: the token stream `A B 1 2 3 4` reaches the
row-number-anchored parser, steps through the data producing zero rows, and
still returns a TableResult with empty rows and confidence 95 instead of
the fallthrough signal. -/
theorem c1_counterexample :
    (TokenMode.parseTextAsTable "A B 1 2 3 4").rows = [] ∧
      (TokenMode.parseTextAsTable "A B 1 2 3 4").confidence = 95 ∧
      (TokenMode.parseTextAsTable "A B 1 2 3 4").headers = ["A", "B"] := by
  decide

/-- C1 amended: whenever the token stream contains a `"1"` token,
`parseWithKnownStructure` returns confidence 95 unconditionally — there is
no zero-rows fallthrough check; falling back to pattern detection happens
only when `"1"` is absent. -/
theorem c1_amended_confidence95 (words : List String) (cc rc : Nat)
    (h : "1" ∈ words) :
    (TokenMode.parseWithKnownStructure words cc rc).confidence = 95 := by
  have hsome : (jsFindIndex (fun w => w == "1") words).isSome := by
    unfold jsFindIndex
    clear cc rc
    generalize 0 = i
    induction words generalizing i with
    | nil => cases h
    | cons a t ih =>
      unfold findIdxFrom
      by_cases hp : a = "1"
      · simp [hp]
      · have : ¬ (a == "1") = true := by simpa using hp
        simp only [this, Bool.false_eq_true, if_false, if_neg]
        rcases List.mem_cons.mp h with h1 | h1
        · exact absurd h1.symm hp
        · exact ih h1 (i + 1)
  obtain ⟨idx, hidx⟩ := Option.isSome_iff_exists.mp hsome
  unfold TokenMode.parseWithKnownStructure
  rw [hidx]

/-- Witness for the amended C1 at the concrete zero-rows input. -/
theorem c1_amended_confidence95_witness :
    "1" ∈ ["A", "B", "1", "2", "3", "4"] ∧
      (TokenMode.parseWithKnownStructure ["A", "B", "1", "2", "3", "4"] 2 4).confidence = 95 :=
  ⟨by decide, c1_amended_confidence95 ["A", "B", "1", "2", "3", "4"] 2 4 (by decide)⟩

/-- C2 is false on the code: on `A B 1 x 2 y z` the row-number-anchored
parser returns headers `[A, B]` but its first row carries only the key `A`
— the entry for header `B` is missing, not filled with the empty string. -/
theorem c2_counterexample :
    (TokenMode.parseTextAsTable "A B 1 x 2 y z").headers = ["A", "B"] ∧
      ((TokenMode.parseTextAsTable "A B 1 x 2 y z").rows.headD []).map Prod.fst = ["A"] ∧
      "B" ∉ ((TokenMode.parseTextAsTable "A B 1 x 2 y z").rows.headD []).map Prod.fst := by
  decide

/-- C3 is false on the code: the first line `A A` produces the duplicate
header list `[A, A]` — headers are not pairwise unique and no `Column_N`
replacement takes place. -/
theorem c3_counterexample :
    (LineMode.parseTextAsTable "A A\nx y").headers = ["A", "A"] ∧
      ¬ (LineMode.parseTextAsTable "A A\nx y").headers.Nodup := by
  decide

/-- C8 is false on the code: on `[ab, Name, Age, x, y, z]` (where `ab` is
rejected as a header) the source pools `words.slice(headers.length)`, which
re-includes the examined token `Age`; pooling the tokens after the
header-candidate window, as the claim states, would give a different
result (an empty pool, hence no rows). -/
theorem c8_counterexample :
    TokenMode.parseWithPatternDetection ["ab", "Name", "Age", "x", "y", "z"] ≠
        parseWithPatternDetectionAfterWindow ["ab", "Name", "Age", "x", "y", "z"] ∧
      ((TokenMode.parseWithPatternDetection ["ab", "Name", "Age", "x", "y", "z"]).rows.headD []) =
        [("Name", "Age"), ("Age", "x")] ∧
      (parseWithPatternDetectionAfterWindow ["ab", "Name", "Age", "x", "y", "z"]).rows = [] := by
  decide

/-- C9 is false on the code: this stream has a contiguous row-number
sequence and 12 tokens before the first `"1"` — an inferred column count
outside [2, 10] — yet the engine does not fall through to the keyword
fallback: the statistical estimate (9) is tried next and accepted, so the
result has confidence 95, not 75. -/
theorem c9_counterexample :
    jsFindIndex (fun w => w == "1")
        ["A", "B", "C", "D", "E", "F", "G", "H", "I", "J", "K", "L",
         "1", "a", "b", "c", "2", "d", "e", "f"] = some 12 ∧
      TokenMode.rowNumsOf
        ["A", "B", "C", "D", "E", "F", "G", "H", "I", "J", "K", "L",
         "1", "a", "b", "c", "2", "d", "e", "f"] = [1, 2] ∧
      (TokenMode.parseTableByPattern
        ["A", "B", "C", "D", "E", "F", "G", "H", "I", "J", "K", "L",
         "1", "a", "b", "c", "2", "d", "e", "f"]).confidence = 95 := by
  decide

/-- The validity test of `detectDelimiter` holds exactly when some common
cell count greater than 1 is shared by all sampled lines. -/
lemma all_counts_iff (L : List Nat) :
    (L.all (fun c => decide (1 < c) && c == L.headD 0) = true) ↔
      ∃ n, 1 < n ∧ ∀ c ∈ L, c = n := by
  cases L with
  | nil =>
    simp only [List.all_nil, List.not_mem_nil, false_implies, implies_true, and_true, true_iff]
    exact ⟨2, by omega⟩
  | cons a t =>
    simp only [List.all_eq_true, Bool.and_eq_true, decide_eq_true_eq, beq_iff_eq,
      List.headD_cons]
    constructor
    · intro hall
      refine ⟨a, (hall a (List.mem_cons_self a t)).1, ?_⟩
      intro c hc
      exact (hall c hc).2
    · rintro ⟨n, hn, hall⟩
      intro c hc
      have hc' := hall c hc
      have ha' := hall a (List.mem_cons_self a t)
      exact ⟨hc' ▸ hn, hc'.trans ha'.symm⟩

/-- `delimValid` characterised by the claim's wording. -/
lemma delimValid_iff (lines : List String) (d : Delim) :
    delimValid lines d = true ↔
      ∃ n, 1 < n ∧ ∀ line ∈ lines.take 5, (splitByDelim d line).length = n := by
  unfold delimValid
  rw [all_counts_iff]
  constructor
  · rintro ⟨n, hn, hall⟩
    exact ⟨n, hn, fun l hl => hall _ (List.mem_map_of_mem _ hl)⟩
  · rintro ⟨n, hn, hall⟩
    refine ⟨n, hn, ?_⟩
    intro c hc
    obtain ⟨l, hl, rfl⟩ := List.mem_map.mp hc
    exact hall l hl

/-- C5: `detectDelimiter` returns the first delimiter in the fixed priority
order (tab, run of ≥2 spaces, optionally-spaced pipe, comma) that splits
each of the first 5 lines into the same cell count greater than 1; if none
qualifies it returns the any-whitespace default.  Exactly one delimiter is
selected, and validity means a shared cell count above 1. -/
theorem c5_detectDelimiter_first_match (lines : List String) :
    ((detectDelimiter lines = Delim.tab ∧ delimValid lines Delim.tab = true) ∨
     (detectDelimiter lines = Delim.spaces2 ∧ delimValid lines Delim.tab = false ∧
        delimValid lines Delim.spaces2 = true) ∨
     (detectDelimiter lines = Delim.pipe ∧ delimValid lines Delim.tab = false ∧
        delimValid lines Delim.spaces2 = false ∧ delimValid lines Delim.pipe = true) ∨
     (detectDelimiter lines = Delim.comma ∧ delimValid lines Delim.tab = false ∧
        delimValid lines Delim.spaces2 = false ∧ delimValid lines Delim.pipe = false ∧
        delimValid lines Delim.comma = true) ∨
     (detectDelimiter lines = Delim.wsDefault ∧ delimValid lines Delim.tab = false ∧
        delimValid lines Delim.spaces2 = false ∧ delimValid lines Delim.pipe = false ∧
        delimValid lines Delim.comma = false)) ∧
    (∀ d : Delim, delimValid lines d = true ↔
        ∃ n, 1 < n ∧ ∀ line ∈ lines.take 5, (splitByDelim d line).length = n) := by
  refine ⟨?_, fun d => delimValid_iff lines d⟩
  by_cases h1 : delimValid lines Delim.tab = true
  · exact Or.inl ⟨by simp [detectDelimiter, delimPriority, List.find?, h1], h1⟩
  · simp only [Bool.not_eq_true] at h1
    by_cases h2 : delimValid lines Delim.spaces2 = true
    · exact Or.inr (Or.inl
        ⟨by simp [detectDelimiter, delimPriority, List.find?, h1, h2], h1, h2⟩)
    · simp only [Bool.not_eq_true] at h2
      by_cases h3 : delimValid lines Delim.pipe = true
      · exact Or.inr (Or.inr (Or.inl
          ⟨by simp [detectDelimiter, delimPriority, List.find?, h1, h2, h3], h1, h2, h3⟩))
      · simp only [Bool.not_eq_true] at h3
        by_cases h4 : delimValid lines Delim.comma = true
        · exact Or.inr (Or.inr (Or.inr (Or.inl
            ⟨by simp [detectDelimiter, delimPriority, List.find?, h1, h2, h3, h4],
             h1, h2, h3, h4⟩)))
        · simp only [Bool.not_eq_true] at h4
          exact Or.inr (Or.inr (Or.inr (Or.inr
            ⟨by simp [detectDelimiter, delimPriority, List.find?, h1, h2, h3, h4],
             h1, h2, h3, h4⟩)))

/-- The integer acceptance test of the line parser coincides with the
spec's "at least 80% of the header cell count" over the rationals (the
source computes `headers.length * 0.8` in floating point; for the integer
comparison both agree exactly). -/
lemma ratio80_iff (h v : ℕ) : (h * 4 ≤ v * 5) ↔ ((h : ℚ) * (4 / 5) ≤ (v : ℚ)) := by
  rw [mul_div_assoc', div_le_iff₀ (by norm_num : (0:ℚ) < 5)]
  constructor <;> intro hh <;> exact_mod_cast hh

/-- The headers computed by the line parser for a given text. -/
def lineHeadersOf (text : String) : List String :=
  ((splitByDelim (detectDelimiter (LineMode.nonBlankLines text))
      ((LineMode.nonBlankLines text).headD "")).map jsTrim).filter (fun h => h != "")

/-- The trimmed cells of one line under the detected delimiter. -/
def lineValuesOf (text line : String) : List String :=
  (splitByDelim (detectDelimiter (LineMode.nonBlankLines text)) line).map jsTrim

/-- The row object as a plain ordered list of (header, value) pairs, the
shape `buildRow` produces when no header collides. -/
def pairsOf (values : List String) : List String → Nat → List (String × String)
  | [], _ => []
  | h :: hs, i => (h, values.getD i "") :: pairsOf values hs (i + 1)

lemma recInsert_of_not_mem (r : List (String × String)) (k v : String)
    (h : r.any (fun p => p.1 == k) = false) : recInsert r k v = r ++ [(k, v)] := by
  unfold recInsert
  simp [h]

/-- With pairwise distinct headers `buildRowAux` only ever appends. -/
lemma buildRowAux_eq_pairsOf (values : List String) :
    ∀ (headers : List String), headers.Nodup →
      ∀ (i : Nat) (r : List (String × String)),
        (∀ h ∈ headers, r.any (fun p => p.1 == h) = false) →
        LineMode.buildRowAux values headers i r = r ++ pairsOf values headers i := by
  intro headers
  induction headers with
  | nil => intro _ i r _; simp [LineMode.buildRowAux, pairsOf]
  | cons h hs ih =>
    intro hnd i r hdisj
    have hh : r.any (fun p => p.1 == h) = false := hdisj h (List.mem_cons_self h hs)
    have hins : recInsert r h (values.getD i "") = r ++ [(h, values.getD i "")] :=
      recInsert_of_not_mem r h _ hh
    have hnd' : hs.Nodup := (List.nodup_cons.mp hnd).2
    have hnotm : h ∉ hs := (List.nodup_cons.mp hnd).1
    have hdisj' : ∀ x ∈ hs, (r ++ [(h, values.getD i "")]).any (fun p => p.1 == x) = false := by
      intro x hx
      have hne : h ≠ x := fun he => hnotm (he ▸ hx)
      have h1 := hdisj x (List.mem_cons_of_mem h hx)
      simp only [List.any_append, h1, List.any_cons, List.any_nil, Bool.false_or,
        Bool.or_false]
      simpa using hne
    calc LineMode.buildRowAux values (h :: hs) i r
        = LineMode.buildRowAux values hs (i + 1) (r ++ [(h, values.getD i "")]) := by
          simp only [LineMode.buildRowAux]
          rw [hins]
      _ = (r ++ [(h, values.getD i "")]) ++ pairsOf values hs (i + 1) := ih hnd' (i + 1) _ hdisj'
      _ = r ++ pairsOf values (h :: hs) i := by simp [pairsOf]

/-- Looking up the `j`-th header in `pairsOf` finds exactly the `j`-th
value (or `""` when the values list is short), provided headers are
pairwise distinct. -/
lemma pairsOf_find? (values : List String) :
    ∀ (headers : List String), headers.Nodup →
      ∀ (i j : Nat) (hj : j < headers.length),
        (pairsOf values headers i).find? (fun p => p.1 == headers.get ⟨j, hj⟩) =
          some (headers.get ⟨j, hj⟩, values.getD (i + j) "") := by
  intro headers
  induction headers with
  | nil => intro _ i j hj; cases hj
  | cons h hs ih =>
    intro hnd i j hj
    cases j with
    | zero =>
      simp only [pairsOf, List.get]
      rw [List.find?_cons_of_pos _ (by simp)]
      simp
    | succ j' =>
      have hnotm : h ∉ hs := (List.nodup_cons.mp hnd).1
      have hj' : j' < hs.length := Nat.lt_of_succ_lt_succ hj
      have hget : (h :: hs).get ⟨j' + 1, hj⟩ = hs.get ⟨j', hj'⟩ := rfl
      have hne : (h == (h :: hs).get ⟨j' + 1, hj⟩) = false := by
        rw [hget]
        have hnh : h ≠ hs.get ⟨j', hj'⟩ := fun he => hnotm (he ▸ List.get_mem hs j' hj')
        simpa [List.get_eq_getElem] using hnh
      simp only [pairsOf]
      rw [List.find?_cons_of_neg _
        (by show ¬ (h == (h :: hs).get ⟨j' + 1, hj⟩) = true
            rw [hne]; exact Bool.false_ne_true)]
      rw [hget]
      have harith : i + (j' + 1) = i + 1 + j' := by omega
      rw [harith]
      exact ih (List.nodup_cons.mp hnd).2 (i + 1) j' hj'

/-- C6: in the delimiter-based line parser a subsequent line becomes a row
iff its cell count is at least 80% of the header cell count (over ℚ);
accepted rows are built positionally and lines below the threshold are
silently skipped without aborting the parse.  Moreover, for distinct
headers the built row maps the `j`-th header to the `j`-th cell, with
missing trailing cells filled by the empty string. -/
theorem c6_row_threshold (text : String)
    (hn : 2 ≤ (LineMode.nonBlankLines text).length) :
    ((LineMode.parseTextAsTable text).rows =
      ((LineMode.nonBlankLines text).drop 1).filterMap (fun line =>
        if ((lineHeadersOf text).length : ℚ) * (4 / 5) ≤ ((lineValuesOf text line).length : ℚ)
        then some (LineMode.buildRow (lineHeadersOf text) (lineValuesOf text line))
        else none)) ∧
    (∀ headers values : List String, headers.Nodup →
      ∀ (j : Nat) (hj : j < headers.length),
        (LineMode.buildRow headers values).find? (fun p => p.1 == headers.get ⟨j, hj⟩) =
          some (headers.get ⟨j, hj⟩, values.getD j "")) := by
  constructor
  · unfold LineMode.parseTextAsTable
    rw [if_neg (by omega)]
    refine List.filterMap_congr ?_
    intro line _
    exact if_congr (ratio80_iff _ _) rfl rfl
  · intro headers values hnd j hj
    have hrow : LineMode.buildRow headers values = pairsOf values headers 0 := by
      unfold LineMode.buildRow
      rw [buildRowAux_eq_pairsOf values headers hnd 0 [] (by intro h _; rfl)]
      rfl
    rw [hrow]
    have := pairsOf_find? values headers hnd 0 j hj
    simpa using this

/-- Witness for C6 on a concrete three-line text. -/
theorem c6_row_threshold_witness :
    2 ≤ (LineMode.nonBlankLines "Date Item Qty\n01-01-2024 Rice 25\nOil").length ∧
      ((LineMode.parseTextAsTable "Date Item Qty\n01-01-2024 Rice 25\nOil").rows =
        ((LineMode.nonBlankLines "Date Item Qty\n01-01-2024 Rice 25\nOil").drop 1).filterMap
          (fun line =>
            if ((lineHeadersOf "Date Item Qty\n01-01-2024 Rice 25\nOil").length : ℚ) * (4 / 5) ≤
                ((lineValuesOf "Date Item Qty\n01-01-2024 Rice 25\nOil" line).length : ℚ)
            then some (LineMode.buildRow (lineHeadersOf "Date Item Qty\n01-01-2024 Rice 25\nOil")
                (lineValuesOf "Date Item Qty\n01-01-2024 Rice 25\nOil" line))
            else none)) :=
  ⟨by decide, (c6_row_threshold "Date Item Qty\n01-01-2024 Rice 25\nOil" (by decide)).1⟩

/-! Key-set lemmas for the row records. -/

lemma keys_map_replace (r : List (String × String)) (k v : String) :
    (r.map (fun p => if p.1 == k then (k, v) else p)).map Prod.fst = r.map Prod.fst := by
  induction r with
  | nil => rfl
  | cons p t ih =>
    have hhead : (if (p.1 == k) = true then (k, v) else p).1 = p.1 := by
      by_cases hp : (p.1 == k) = true
      · rw [if_pos hp]
        have hpk : p.1 = k := by simpa using hp
        exact hpk.symm
      · rw [if_neg hp]
    simp only [List.map_cons]
    rw [hhead, ih]

/-- A JS object assignment adds the key `k` and otherwise keeps the key set. -/
lemma keys_recInsert (r : List (String × String)) (k v x : String) :
    x ∈ (recInsert r k v).map Prod.fst ↔ x = k ∨ x ∈ r.map Prod.fst := by
  unfold recInsert
  by_cases hany : (r.any (fun p => p.1 == k)) = true
  · rw [if_pos hany, keys_map_replace]
    have hk : k ∈ r.map Prod.fst := by
      obtain ⟨p, hp, hpk⟩ := List.any_eq_true.mp hany
      have hpk' : p.1 = k := by simpa using hpk
      exact hpk' ▸ List.mem_map_of_mem Prod.fst hp
    constructor
    · exact Or.inr
    · rintro (rfl | hx)
      · exact hk
      · exact hx
  · rw [if_neg hany]
    simp [or_comm]

lemma keys_buildRowAux (values : List String) :
    ∀ (headers : List String) (i : Nat) (r : List (String × String)) (x : String),
      x ∈ (LineMode.buildRowAux values headers i r).map Prod.fst ↔
        x ∈ r.map Prod.fst ∨ x ∈ headers := by
  intro headers
  induction headers with
  | nil => intro i r x; simp [LineMode.buildRowAux]
  | cons h hs ih =>
    intro i r x
    simp only [LineMode.buildRowAux]
    rw [ih, keys_recInsert]
    simp only [List.mem_cons]
    tauto

/-- A built row's key set is exactly the header set. -/
lemma keys_buildRow (headers values : List String) (x : String) :
    x ∈ (LineMode.buildRow headers values).map Prod.fst ↔ x ∈ headers := by
  unfold LineMode.buildRow
  rw [keys_buildRowAux]
  simp

/-- Every row produced by the line parser has exactly the headers as keys. -/
lemma lineParse_keys (text : String) :
    ∀ row ∈ (LineMode.parseTextAsTable text).rows, ∀ k : String,
      (k ∈ row.map Prod.fst ↔ k ∈ (LineMode.parseTextAsTable text).headers) := by
  intro row hrow k
  unfold LineMode.parseTextAsTable at hrow ⊢
  by_cases hlt : (LineMode.nonBlankLines text).length < 2
  · rw [if_pos hlt] at hrow
    cases hrow
  · rw [if_neg hlt] at hrow ⊢
    dsimp only at hrow ⊢
    obtain ⟨line, hline, hsome⟩ := List.mem_filterMap.mp hrow
    split at hsome
    · cases hsome
      exact keys_buildRow _ _ _
    · cases hsome

/-- Invariant of the accumulator loop that chunks the fallback rows. -/
lemma chunkRowsAux_mem (P : List (String × String) → Prop)
    (headers dataWords : List String)
    (hrow : ∀ i, P (TokenMode.buildPatternRow headers dataWords i)) :
    ∀ (fuel i : Nat) (acc : List (List (String × String))),
      (∀ r ∈ acc, P r) →
      ∀ r ∈ TokenMode.chunkRowsAux headers dataWords fuel i acc, P r := by
  intro fuel
  induction fuel with
  | zero => intro i acc hacc r hr; exact hacc r hr
  | succ f ih =>
    intro i acc hacc r hr
    simp only [TokenMode.chunkRowsAux] at hr
    by_cases hi : i < dataWords.length
    · rw [if_pos hi] at hr
      by_cases hc : ((TokenMode.buildPatternRow headers dataWords i).any
          (fun p => jsTrim p.2 != "")) = true
      · rw [if_pos hc] at hr
        refine ih (i + headers.length) _ ?_ r hr
        intro r' hr'
        rcases List.mem_append.mp hr' with h' | h'
        · exact hacc r' h'
        · rw [List.mem_singleton.mp h']
          exact hrow i
      · rw [if_neg hc] at hr
        exact ih _ _ hacc r hr
    · rw [if_neg hi] at hr
      exact hacc r hr

lemma chunkRows_keys (headers dataWords : List String) :
    ∀ row ∈ TokenMode.chunkRows headers dataWords, ∀ k : String,
      (k ∈ row.map Prod.fst ↔ k ∈ headers) := by
  intro row hrow
  exact chunkRowsAux_mem (fun r => ∀ k : String, (k ∈ r.map Prod.fst ↔ k ∈ headers))
    headers dataWords
    (fun i k => keys_buildRow headers (dataWords.drop i) k)
    dataWords.length 0 [] (fun r hr => absurd hr (List.not_mem_nil r)) row hrow

/-- Members of the fallback header scan were accepted as likely headers. -/
lemma patternHeaders_accept :
    ∀ (L : List String) (acc : List String) (h : String),
      h ∈ L.foldl (fun hs w =>
        if TokenMode.isLikelyHeader w && decide (hs.length < 8) then hs ++ [w] else hs) acc →
      h ∈ acc ∨ TokenMode.isLikelyHeader h = true := by
  intro L
  induction L with
  | nil => intro acc h hm; exact Or.inl hm
  | cons w t ih =>
    intro acc h hm
    simp only [List.foldl_cons] at hm
    rcases ih _ h hm with hin | hlike
    · by_cases hc : (TokenMode.isLikelyHeader w && decide (acc.length < 8)) = true
      · rw [if_pos hc] at hin
        rcases List.mem_append.mp hin with h' | h'
        · exact Or.inl h'
        · rw [List.mem_singleton.mp h']
          exact Or.inr ((Bool.and_eq_true _ _).mp hc).1
      · rw [if_neg hc] at hin
        exact Or.inl hin
    · exact Or.inr hlike

lemma patternHeaders_isLikely {words : List String} {h : String}
    (hm : h ∈ TokenMode.patternHeaders words) : TokenMode.isLikelyHeader h = true := by
  unfold TokenMode.patternHeaders at hm
  rcases patternHeaders_accept _ _ _ hm with h0 | h1
  · cases h0
  · exact h1

/-- Every row of the keyword fallback parser has exactly the headers as keys. -/
lemma patternDetection_keys (words : List String) :
    ∀ row ∈ (TokenMode.parseWithPatternDetection words).rows, ∀ k : String,
      (k ∈ row.map Prod.fst ↔ k ∈ (TokenMode.parseWithPatternDetection words).headers) := by
  intro row hrow k
  unfold TokenMode.parseWithPatternDetection at hrow ⊢
  by_cases h0 : (TokenMode.patternHeaders words).length = 0
  · rw [if_pos h0] at hrow
    cases hrow
  · rw [if_neg h0] at hrow ⊢
    dsimp only at hrow ⊢
    exact chunkRows_keys _ _ row hrow k

lemma getD_mem {l : List String} {n : Nat} {d : String} (h : n < l.length) :
    l.getD n d ∈ l := by
  induction l generalizing n with
  | nil => cases h
  | cons a t ih =>
    cases n with
    | zero => exact List.mem_cons_self a t
    | succ m => exact List.mem_cons_of_mem a (ih (Nat.lt_of_succ_lt_succ h))

/-- Keys added by the cell loop are headers (headers being non-blank, the
`ColumnN` fallback key is never used while `col` stays within range). -/
lemma consumeCellsGo_keys (allData headers : List String) (rowNum : Nat)
    (hne : ∀ h ∈ headers, h ≠ "") :
    ∀ (colsLeft col ci : Nat) (row : List (String × String)) (hd : Bool),
      col + colsLeft ≤ headers.length →
      ∀ x ∈ (TokenMode.consumeCellsGo allData headers rowNum colsLeft col ci row hd).1.map
          Prod.fst,
        x ∈ row.map Prod.fst ∨ x ∈ headers := by
  intro colsLeft
  induction colsLeft with
  | zero => intro col ci row hd _ x hx; exact Or.inl hx
  | succ cl ih =>
    intro col ci row hd hle x hx
    simp only [TokenMode.consumeCellsGo] at hx
    by_cases hci : ci < allData.length
    · rw [if_pos hci] at hx
      by_cases hbreak : (isDigits (allData.getD ci "") &&
          parseIntDigits (allData.getD ci "") == rowNum + 1) = true
      · rw [if_pos hbreak] at hx
        exact Or.inl hx
      · rw [if_neg hbreak] at hx
        have hcol : col < headers.length := by omega
        have hk0 : headers.getD col "" ∈ headers := getD_mem hcol
        have hk0ne : headers.getD col "" ≠ "" := hne _ hk0
        have hkey : (if (headers.getD col "" == "") = true
            then "Column" ++ natToStr (col + 1) else headers.getD col "") =
            headers.getD col "" := by
          rw [if_neg (by simpa using hk0ne)]
        rw [hkey] at hx
        rcases ih (col + 1) (ci + 1) _ _ (by omega) x hx with hin | hin
        · rcases (keys_recInsert _ _ _ x).mp hin with rfl | hin'
          · exact Or.inr hk0
          · exact Or.inl hin'
        · exact Or.inr hin
    · rw [if_neg hci] at hx
      exact Or.inl hx

/-- Invariant of the outer row loop of the row-number-anchored parser. -/
lemma processRowsAux_mem (P : List (String × String) → Prop)
    (allData headers : List String) (columnCount : Nat)
    (hrow : ∀ rowNum ci, P (TokenMode.consumeCells allData headers columnCount rowNum ci).1) :
    ∀ (fuel rowNum ci : Nat) (acc : List (List (String × String))),
      (∀ r ∈ acc, P r) →
      ∀ r ∈ TokenMode.processRowsAux allData headers columnCount fuel rowNum ci acc, P r := by
  intro fuel
  induction fuel with
  | zero => intro _ _ acc hacc r hr; exact hacc r hr
  | succ f ih =>
    intro rowNum ci acc hacc r hr
    simp only [TokenMode.processRowsAux] at hr
    by_cases hci : ci < allData.length
    · rw [if_pos hci] at hr
      by_cases hflag : (TokenMode.consumeCells allData headers columnCount rowNum
          (if (allData.getD ci "" == natToStr rowNum) = true then ci + 1 else ci)).2.1 = true
      · rw [if_pos hflag] at hr
        refine ih _ _ _ ?_ r hr
        intro r' hr'
        rcases List.mem_append.mp hr' with h' | h'
        · exact hacc r' h'
        · rw [List.mem_singleton.mp h']
          exact hrow _ _
      · rw [if_neg hflag] at hr
        exact ih _ _ _ hacc r hr
    · rw [if_neg hci] at hr
      exact hacc r hr

/-- The adjusted column count never exceeds the header count. -/
lemma adjColumnCount_le (n cc : Nat) : (if (n != cc) = true then n else cc) ≤ n := by
  split
  · exact Nat.le_refl n
  · next hbe =>
    have hn : n = cc := by simpa using hbe
    omega

/-- Every key of a row of the row-number-anchored parser is a header
(the converse fails: truncated rows miss trailing headers). -/
lemma knownStructure_keys (words : List String) (cc rc : Nat) :
    ∀ row ∈ (TokenMode.parseWithKnownStructure words cc rc).rows, ∀ k : String,
      k ∈ row.map Prod.fst → k ∈ (TokenMode.parseWithKnownStructure words cc rc).headers := by
  intro row hrow k hk
  unfold TokenMode.parseWithKnownStructure at hrow ⊢
  cases hidx : jsFindIndex (fun w => w == "1") words with
  | none =>
    rw [hidx] at hrow
    exact (patternDetection_keys words row hrow k).mp hk
  | some idx =>
    rw [hidx] at hrow
    dsimp only at hrow ⊢
    have hne : ∀ h ∈ (words.take idx).filter (fun w => 0 < (jsTrim w).data.length), h ≠ "" := by
      intro h hh he
      subst he
      have hmem := (List.mem_filter.mp hh).2
      exact absurd hmem (by decide)
    refine processRowsAux_mem
      (fun r => ∀ x ∈ r.map Prod.fst,
        x ∈ (words.take idx).filter (fun w => 0 < (jsTrim w).data.length))
      (words.drop idx) _ _ ?_ rc 1 0 []
      (fun r hr => absurd hr (List.not_mem_nil r)) row hrow k hk
    intro rowNum ci x hx
    rcases consumeCellsGo_keys (words.drop idx) _ rowNum hne _ 0 ci [] false
        (by rw [Nat.zero_add]; exact adjColumnCount_le _ cc) x hx with h0 | h0
    · exact absurd h0 (List.not_mem_nil x)
    · exact h0

/-- C2 amended: the key-set invariant holds as stated for the delimiter
line parser and for the keyword fallback parser; for the row-number
anchored parser only the inclusion holds — every key of a row is a header,
but a truncated row may miss trailing headers (missing cells are not
filled with the empty string there). -/
theorem c2_amended_key_sets :
    (∀ text : String, ∀ row ∈ (LineMode.parseTextAsTable text).rows, ∀ k : String,
        (k ∈ row.map Prod.fst ↔ k ∈ (LineMode.parseTextAsTable text).headers)) ∧
    (∀ words : List String, ∀ row ∈ (TokenMode.parseWithPatternDetection words).rows,
        ∀ k : String,
        (k ∈ row.map Prod.fst ↔ k ∈ (TokenMode.parseWithPatternDetection words).headers)) ∧
    (∀ (words : List String) (cc rc : Nat),
        ∀ row ∈ (TokenMode.parseWithKnownStructure words cc rc).rows, ∀ k : String,
        k ∈ row.map Prod.fst → k ∈ (TokenMode.parseWithKnownStructure words cc rc).headers) :=
  ⟨lineParse_keys, patternDetection_keys, knownStructure_keys⟩

/-- Witness for the amended C2 on a concrete two-line text. -/
theorem c2_amended_key_sets_witness :
    [("a", "c"), ("b", "d")] ∈ (LineMode.parseTextAsTable "a b\nc d").rows ∧
      ("a" ∈ ([("a", "c"), ("b", "d")] : List (String × String)).map Prod.fst ↔
        "a" ∈ (LineMode.parseTextAsTable "a b\nc d").headers) :=
  ⟨by decide, c2_amended_key_sets.1 "a b\nc d" [("a", "c"), ("b", "d")] (by decide) "a"⟩

lemma patternHeaders_ne_blank {words : List String} {h : String}
    (hm : h ∈ TokenMode.patternHeaders words) : h ≠ "" := by
  intro he
  subst he
  exact absurd (patternHeaders_isLikely hm) (by decide)

lemma patternDetection_headers_ne_blank (words : List String) :
    ∀ h ∈ (TokenMode.parseWithPatternDetection words).headers, h ≠ "" := by
  intro h hh
  unfold TokenMode.parseWithPatternDetection at hh
  by_cases h0 : (TokenMode.patternHeaders words).length = 0
  · rw [if_pos h0] at hh
    cases hh
  · rw [if_neg h0] at hh
    exact patternHeaders_ne_blank hh

/-- C3 amended: no strategy deduplicates headers or replaces a colliding
header by `Column_N` (duplicates survive verbatim, see the counterexample);
what does hold is that blank computed headers never reach the output — the
line parser and the row-number parser drop them, and the fallback never
accepts one. -/
theorem c3_amended_headers_nonblank :
    (∀ text : String, ∀ h ∈ (LineMode.parseTextAsTable text).headers, h ≠ "") ∧
    (∀ (words : List String) (cc rc : Nat),
        ∀ h ∈ (TokenMode.parseWithKnownStructure words cc rc).headers, h ≠ "") ∧
    (∀ words : List String, ∀ h ∈ (TokenMode.parseWithPatternDetection words).headers, h ≠ "") := by
  refine ⟨?_, ?_, patternDetection_headers_ne_blank⟩
  · intro text h hh
    unfold LineMode.parseTextAsTable at hh
    by_cases hlt : (LineMode.nonBlankLines text).length < 2
    · rw [if_pos hlt] at hh
      cases hh
    · rw [if_neg hlt] at hh
      dsimp only at hh
      have := (List.mem_filter.mp hh).2
      simpa using this
  · intro words cc rc h hh
    unfold TokenMode.parseWithKnownStructure at hh
    cases hidx : jsFindIndex (fun w => w == "1") words with
    | none =>
      rw [hidx] at hh
      exact patternDetection_headers_ne_blank words h hh
    | some idx =>
      rw [hidx] at hh
      dsimp only at hh
      intro he
      subst he
      have hmem := (List.mem_filter.mp hh).2
      exact absurd hmem (by decide)

/-- Witness for the amended C3 at a concrete duplicated-header input. -/
theorem c3_amended_headers_nonblank_witness :
    "A" ∈ (LineMode.parseTextAsTable "A A\nx y").headers ∧ "A" ≠ "" :=
  ⟨by decide, c3_amended_headers_nonblank.1 "A A\nx y" "A" (by decide)⟩

/-- The amended §4.3 data-pool rule, stated declaratively: chunk the pool
(the tokens after the first `headers.length` positions) into groups of
`headers.length` tokens in order; each chunk yields a positionally mapped
row (short final chunk padded with `""`), kept when some value is
non-blank. -/
def patternRowsSpecAux (headers : List String) :
    Nat → List String → List (List (String × String))
  | 0, _ => []
  | fuel + 1, pool =>
    if pool.length = 0 then []
    else
      (if (LineMode.buildRow headers pool).any (fun p => jsTrim p.2 != "")
        then [LineMode.buildRow headers pool] else []) ++
        patternRowsSpecAux headers fuel (pool.drop headers.length)

/-- Declarative chunking of a data pool (`fuel = pool.length` suffices). -/
def patternRowsSpec (headers pool : List String) : List (List (String × String)) :=
  patternRowsSpecAux headers pool.length pool

lemma patternRowsSpecAux_nil : ∀ (fuel : Nat) (pool : List String),
    patternRowsSpecAux [] fuel pool = [] := by
  intro fuel
  induction fuel with
  | zero => intro pool; rfl
  | succ f ih =>
    intro pool
    simp only [patternRowsSpecAux]
    by_cases hp : pool.length = 0
    · rw [if_pos hp]
    · rw [if_neg hp]
      have hrow : LineMode.buildRow [] pool = [] := rfl
      rw [hrow]
      simp [ih]

/-- The accumulator chunking loop of the source computes exactly the
declarative chunking of the suffix `dataWords.drop i`. -/
lemma chunkRowsAux_eq_spec (headers dataWords : List String) :
    ∀ (fuel i : Nat) (acc : List (List (String × String))),
      TokenMode.chunkRowsAux headers dataWords fuel i acc =
        acc ++ patternRowsSpecAux headers fuel (dataWords.drop i) := by
  intro fuel
  induction fuel with
  | zero => intro i acc; simp [TokenMode.chunkRowsAux, patternRowsSpecAux]
  | succ f ih =>
    intro i acc
    simp only [TokenMode.chunkRowsAux, patternRowsSpecAux]
    by_cases hi : i < dataWords.length
    · rw [if_pos hi]
      have hlen : ¬ ((dataWords.drop i).length = 0) := by
        rw [List.length_drop]
        omega
      rw [if_neg hlen]
      rw [show TokenMode.buildPatternRow headers dataWords i =
        LineMode.buildRow headers (dataWords.drop i) from rfl]
      rw [List.drop_drop]
      by_cases hc : ((LineMode.buildRow headers (dataWords.drop i)).any
          (fun p => jsTrim p.2 != "")) = true
      · rw [if_pos hc, if_pos hc, ih]
        simp
      · rw [if_neg hc, if_neg hc, ih]
        simp
    · rw [if_neg hi]
      have hlen : (dataWords.drop i).length = 0 := by
        rw [List.length_drop]
        omega
      rw [if_pos hlen]
      simp

/-- C8 amended: the data pool of the keyword fallback parser is exactly
the tokens after the first `headers.length` positions (not the tokens
after the examined 10-token window), and it is chunked in order into
groups of size `headers.length` with no row-number anchoring. -/
theorem c8_amended_pool_chunks (words : List String) :
    (TokenMode.parseWithPatternDetection words).rows =
      patternRowsSpec (TokenMode.patternHeaders words)
        (words.drop (TokenMode.patternHeaders words).length) := by
  unfold TokenMode.parseWithPatternDetection
  by_cases h0 : (TokenMode.patternHeaders words).length = 0
  · rw [if_pos h0]
    dsimp only
    have hnil : TokenMode.patternHeaders words = [] := List.length_eq_zero.mp h0
    rw [hnil]
    exact (patternRowsSpecAux_nil _ _).symm
  · rw [if_neg h0]
    dsimp only
    unfold TokenMode.chunkRows
    rw [chunkRowsAux_eq_spec]
    simp [patternRowsSpec]

/-- C9 amended: with a contiguous row-number sequence the dispatch of
`parseTableByPattern` is three-way.  (a) If the header-derived count (the
positive index of the first `"1"`, accepted in [2, 10]) passes, the
row-number parser runs with it and the result has confidence 95.  (b) If
it fails but the statistical estimate (rounded ratio of non-numeric
tokens to row count) is in [2, 10], the row-number parser runs with the
estimate — and may itself still end at the keyword fallback, since
`parseWithKnownStructure` falls back when no `"1"` token exists.  (c) Only
when both checks fail does the engine go directly to the keyword
fallback.  So an inferred column count outside [2, 10] does not by itself
force a fallthrough, and ending at the keyword fallback does not require
both checks to fail. -/
theorem c9_amended_dispatch (words : List String)
    (h2 : 2 ≤ (TokenMode.rowNumsOf words).length)
    (hseq : (TokenMode.rowNumsOf words).length = TokenMode.numberOfRowsOf words) :
    (∀ hc : Nat, TokenMode.headerCountCheck words = some hc →
        TokenMode.parseTableByPattern words =
          TokenMode.parseWithKnownStructure words hc (TokenMode.numberOfRowsOf words) ∧
        (TokenMode.parseTableByPattern words).confidence = 95) ∧
    (TokenMode.headerCountCheck words = none →
      ((2 ≤ TokenMode.estimatedColumnsOf words ∧ TokenMode.estimatedColumnsOf words ≤ 10) →
          TokenMode.parseTableByPattern words =
            TokenMode.parseWithKnownStructure words (TokenMode.estimatedColumnsOf words)
              (TokenMode.numberOfRowsOf words)) ∧
      (¬ (2 ≤ TokenMode.estimatedColumnsOf words ∧ TokenMode.estimatedColumnsOf words ≤ 10) →
          TokenMode.parseTableByPattern words = TokenMode.parseWithPatternDetection words)) := by
  have hmain : TokenMode.parseTableByPattern words =
      (match TokenMode.headerCountCheck words with
       | some headerCount =>
         TokenMode.parseWithKnownStructure words headerCount (TokenMode.numberOfRowsOf words)
       | none =>
         if decide (2 ≤ TokenMode.estimatedColumnsOf words) &&
             decide (TokenMode.estimatedColumnsOf words ≤ 10) then
           TokenMode.parseWithKnownStructure words (TokenMode.estimatedColumnsOf words)
             (TokenMode.numberOfRowsOf words)
         else TokenMode.parseWithPatternDetection words) := by
    unfold TokenMode.parseTableByPattern
    dsimp only
    rw [if_pos h2, if_pos hseq]
  constructor
  · intro hc hhc
    have hidx : jsFindIndex (fun w => w == "1") words = some hc := by
      unfold TokenMode.headerCountCheck at hhc
      cases hfi : jsFindIndex (fun w => w == "1") words with
      | none => rw [hfi] at hhc; cases hhc
      | some idx =>
        rw [hfi] at hhc
        dsimp only at hhc
        by_cases hcond : (decide (0 < idx) && decide (2 ≤ idx) && decide (idx ≤ 10)) = true
        · rw [if_pos hcond] at hhc
          obtain rfl := Option.some.inj hhc
          rfl
        · rw [if_neg hcond] at hhc
          cases hhc
    rw [hmain, hhc]
    refine ⟨rfl, ?_⟩
    show (TokenMode.parseWithKnownStructure words hc (TokenMode.numberOfRowsOf words)).confidence = 95
    unfold TokenMode.parseWithKnownStructure
    rw [hidx]
  · intro hhc
    rw [hmain, hhc]
    constructor
    · intro hest
      rw [if_pos (by simp only [Bool.and_eq_true, decide_eq_true_eq]; exact hest)]
    · intro hest
      rw [if_neg (by simp only [Bool.and_eq_true, decide_eq_true_eq]; exact hest)]

/-- Witness for the amended C9 on a stream with contiguous row numbers
[2, 3] and no `"1"` token: the header check fails, the estimate (3)
passes, the engine dispatches to the row-number parser with the estimate,
and that call itself ends at the keyword fallback (confidence 75) —
ending at the fallback without both checks failing. -/
theorem c9_amended_dispatch_witness :
    (2 ≤ (TokenMode.rowNumsOf
        ["xy", "zw", "2", "apple", "banana", "3", "cherry", "damson"]).length ∧
      (TokenMode.rowNumsOf ["xy", "zw", "2", "apple", "banana", "3", "cherry", "damson"]).length =
        TokenMode.numberOfRowsOf ["xy", "zw", "2", "apple", "banana", "3", "cherry", "damson"] ∧
      TokenMode.headerCountCheck ["xy", "zw", "2", "apple", "banana", "3", "cherry", "damson"] =
        none ∧
      (2 ≤ TokenMode.estimatedColumnsOf
          ["xy", "zw", "2", "apple", "banana", "3", "cherry", "damson"] ∧
        TokenMode.estimatedColumnsOf
          ["xy", "zw", "2", "apple", "banana", "3", "cherry", "damson"] ≤ 10)) ∧
      TokenMode.parseTableByPattern ["xy", "zw", "2", "apple", "banana", "3", "cherry", "damson"] =
        TokenMode.parseWithKnownStructure
          ["xy", "zw", "2", "apple", "banana", "3", "cherry", "damson"]
          (TokenMode.estimatedColumnsOf
            ["xy", "zw", "2", "apple", "banana", "3", "cherry", "damson"])
          (TokenMode.numberOfRowsOf
            ["xy", "zw", "2", "apple", "banana", "3", "cherry", "damson"]) ∧
      (TokenMode.parseTableByPattern
        ["xy", "zw", "2", "apple", "banana", "3", "cherry", "damson"]).confidence = 75 :=
  ⟨⟨by decide, by decide, by decide, by decide, by decide⟩,
   ((c9_amended_dispatch ["xy", "zw", "2", "apple", "banana", "3", "cherry", "damson"]
      (by decide) (by decide)).2 (by decide)).1 ⟨by decide, by decide⟩,
   by decide⟩
